import Mathlib

/-!
Verification development for the chat-statistics extraction pipeline
(Instagram HTML chat export parser, `useChatParser.js`, `App.vue`,
`chartTransforms.js`).

The JavaScript source is embedded shallowly:

* JS strings are `List Char` (one `Char` per Unicode code point; the
  source regexes run with the `u` flag, so matching is per code point).
* JS `Date` values are `JSDate`: either a valid instant or the
  Invalid Date sentinel (a `Date` whose time value is `NaN`).
* The dynamically-typed public boundary of `extractEmojis` is `JSValue`.
* JS objects used as string-keyed dictionaries are insertion-ordered
  association lists (the keys in this application are display names and
  emoji strings, never integer-index strings, so JS enumeration order is
  insertion order).
* The Unicode property tables consulted by the regex engine
  (`Emoji_Presentation`, `Extended_Pictographic`) and the locale-aware
  date parser behind `new Date(string)` are environment capabilities;
  they are passed as explicit parameters (`ep`, `xp`, `pd`).
-/

namespace ChatStats

/-- A JavaScript `Date` value: either a valid instant (milliseconds since
the epoch) or the Invalid Date sentinel (a `Date` object whose time value
is `NaN`). `new Date(string)` never throws; it yields the sentinel for
unparseable text. -/
inductive JSDate where
  | valid (ms : Int)
  | invalid
deriving DecidableEq

/-- A JavaScript value as it can arrive at the dynamically-typed public
boundary of `extractEmojis(text)`. -/
inductive JSValue where
  | vnull
  | vundefined
  | vstr (s : List Char)
  | vnum (n : Int)
  | vbool (b : Bool)
  | vobj
deriving DecidableEq

/-- JS truthiness of a value (`!text` is `!truthy text`): `null`,
`undefined`, the empty string, `0` and `false` are falsy; objects are
always truthy. -/
def truthy : JSValue → Bool
  | .vnull => false
  | .vundefined => false
  | .vstr s => !s.isEmpty
  | .vnum n => n != 0
  | .vbool b => b
  | .vobj => true

/-- `typeof v === 'string'`. -/
def isString : JSValue → Bool
  | .vstr _ => true
  | _ => false

/-!
## Emoji extraction (`extractEmojis`, useChatParser.js lines 153-160)

The source regex is `/\p{Emoji_Presentation}|\p{Extended_Pictographic}/gu`.
Each alternative is a single property escape, so each match consumes
exactly one code point carrying the respective Unicode property; a global
match yields, in order, every code point of the text satisfying either
property, each as its own one-code-point match.
-/

/-- `text.match(/\p{Emoji_Presentation}|\p{Extended_Pictographic}/gu) || []`:
the ordered list of one-code-point matches. `ep` and `xp` are the Unicode
`Emoji_Presentation` and `Extended_Pictographic` property tables supplied
by the regex engine. -/
def emojiMatches (ep xp : Char → Bool) (s : List Char) : List (List Char) :=
  (s.filter (fun c => ep c || xp c)).map (fun c => [c])

/-- `extractEmojis(text)` from useChatParser.js:
`if (!text || typeof text !== 'string') return [];` then
`return text.match(emojiRegex) || []`. -/
def extractEmojis (ep xp : Char → Bool) (v : JSValue) : List (List Char) :=
  if !truthy v || !isString v then []
  else
    match v with
    | .vstr s => emojiMatches ep xp s
    | _ => []

/-- On any (possibly empty) string value, `extractEmojis` agrees with the
raw regex match list. -/
theorem extractEmojis_vstr (ep xp : Char → Bool) (s : List Char) :
    extractEmojis ep xp (.vstr s) = emojiMatches ep xp s := by
  cases s with
  | nil => simp [extractEmojis, truthy, isString, emojiMatches]
  | cons c t => simp [extractEmojis, truthy, isString]

/-- Flattening the one-code-point matches recovers exactly the filtered
code points. -/
theorem emojiMatches_flatten (ep xp : Char → Bool) (s : List Char) :
    (emojiMatches ep xp s).flatten = s.filter (fun c => ep c || xp c) := by
  induction s with
  | nil => rfl
  | cons c t ih =>
    by_cases h : (ep c || xp c) = true <;>
      simp [emojiMatches, List.filter_cons, h] at ih ⊢ <;>
      simpa [emojiMatches] using ih

/-- `List.filter` is idempotent. -/
theorem filter_idem {α : Type} (p : α → Bool) (l : List α) :
    (l.filter p).filter p = l.filter p := by
  induction l with
  | nil => rfl
  | cons x t ih =>
    by_cases h : p x = true <;> simp [List.filter_cons, h, ih]

/-- Matching a string all of whose code points pass the property filter
returns each code point as its own unit. -/
theorem emojiMatches_filter (ep xp : Char → Bool) (s : List Char) :
    emojiMatches ep xp (s.filter (fun c => ep c || xp c)) =
      emojiMatches ep xp s := by
  simp [emojiMatches, filter_idem]

/-- C4 (confirmed): emoji extraction is idempotent. For every text `t`,
re-running extraction over the in-order concatenation of the units
extracted from `t` yields exactly the same sequence of units as the
original extraction: no unit is double-counted, split, or lost by
rejoining. -/
theorem extractEmojis_idempotent (ep xp : Char → Bool) (s : List Char) :
    extractEmojis ep xp (.vstr (extractEmojis ep xp (.vstr s)).flatten) =
      extractEmojis ep xp (.vstr s) := by
  rw [extractEmojis_vstr, extractEmojis_vstr, emojiMatches_flatten,
    emojiMatches_filter]

/-- C10 (confirmed): emoji extraction is total at its public boundary.
`null`, `undefined`, numbers, booleans, plain objects and the empty
string all yield the empty array (never a throw), and every string input
yields the regex match list, an array, never `null` (the source appends
`|| []`). -/
theorem extractEmojis_total (ep xp : Char → Bool) :
    extractEmojis ep xp .vnull = [] ∧
    extractEmojis ep xp .vundefined = [] ∧
    (∀ n : Int, extractEmojis ep xp (.vnum n) = []) ∧
    (∀ b : Bool, extractEmojis ep xp (.vbool b) = []) ∧
    extractEmojis ep xp .vobj = [] ∧
    extractEmojis ep xp (.vstr []) = [] ∧
    (∀ s : List Char, extractEmojis ep xp (.vstr s) = emojiMatches ep xp s) := by
  refine ⟨rfl, rfl, ?_, ?_, rfl, rfl, extractEmojis_vstr ep xp⟩
  · intro n
    by_cases h : n = 0 <;> simp [extractEmojis, truthy, isString, h]
  · intro b
    cases b <;> simp [extractEmojis, truthy, isString]

/-!
## The family-sequence and skin-tone claims (C2, C3)

Relevant Unicode code points, with their properties in the Unicode
Character Database (the data the engine's `\p{...}` escapes consult):

* U+1F468 MAN, U+1F469 WOMAN, U+1F467 GIRL, U+1F466 BOY,
  U+1F44B WAVING HAND, U+1F3FD MEDIUM SKIN TONE: `Emoji_Presentation`.
* U+200D ZERO WIDTH JOINER: neither `Emoji_Presentation` nor
  `Extended_Pictographic`.

These facts enter the theorems as explicit hypotheses on `ep`/`xp` and are
discharged on a concrete table in the witnesses.
-/

def zwjCP : Char := Char.ofNat 0x200D
def manCP : Char := Char.ofNat 0x1F468
def womanCP : Char := Char.ofNat 0x1F469
def girlCP : Char := Char.ofNat 0x1F467
def boyCP : Char := Char.ofNat 0x1F466
def waveCP : Char := Char.ofNat 0x1F44B
def toneCP : Char := Char.ofNat 0x1F3FD

/-- The family ZWJ sequence: man, ZWJ, woman, ZWJ, girl, ZWJ, boy
(4 base people joined by 3 joiners, 7 code points). -/
def familySeq : List Char := [manCP, zwjCP, womanCP, zwjCP, girlCP, zwjCP, boyCP]

/-- A concrete fragment of the `Emoji_Presentation` table, covering the
code points used in the witnesses. -/
def epTable (c : Char) : Bool :=
  c == manCP || c == womanCP || c == girlCP || c == boyCP ||
    c == waveCP || c == toneCP

/-- C2 (code bug): the source regex splits a family ZWJ sequence into its
four component people. Under the Unicode property facts for the seven code
points involved, `extractEmojis` on the family sequence returns four
one-code-point units, not the single 7-code-point unit its own test suite
(`extracts family emoji`) and the documented design require. -/
theorem extractEmojis_family_split (ep xp : Char → Bool)
    (hman : ep manCP = true) (hwoman : ep womanCP = true)
    (hgirl : ep girlCP = true) (hboy : ep boyCP = true)
    (hzep : ep zwjCP = false) (hzxp : xp zwjCP = false) :
    extractEmojis ep xp (.vstr familySeq) =
      [[manCP], [womanCP], [girlCP], [boyCP]] ∧
    (extractEmojis ep xp (.vstr familySeq)).length = 4 := by
  have h : extractEmojis ep xp (.vstr familySeq) =
      [[manCP], [womanCP], [girlCP], [boyCP]] := by
    rw [extractEmojis_vstr]
    simp [emojiMatches, familySeq, List.filter_cons, hman, hwoman, hgirl,
      hboy, hzep, hzxp]
  exact ⟨h, by rw [h]; rfl⟩

/-- Witness for C2: the property-table hypotheses hold of the concrete
table fragment, and the four-way split is observed on it. -/
theorem extractEmojis_family_split_witness :
    extractEmojis epTable (fun _ => false) (.vstr familySeq) =
      [[manCP], [womanCP], [girlCP], [boyCP]] ∧
    (extractEmojis epTable (fun _ => false) (.vstr familySeq)).length = 4 :=
  extractEmojis_family_split epTable (fun _ => false) (by decide) (by decide)
    (by decide) (by decide) (by decide) rfl

/-- C3 (code bug): the source regex splits a base emoji followed by a
skin-tone modifier into two separate units. Under the Unicode property
facts (both the waving hand U+1F44B and the skin-tone modifier U+1F3FD
carry `Emoji_Presentation`), `extractEmojis` returns two one-code-point
units, not the single base-plus-modifier unit its own test suite
(`extracts emoji with skin tone modifier`) requires. -/
theorem extractEmojis_skin_tone_split (ep xp : Char → Bool)
    (hwave : ep waveCP = true) (htone : ep toneCP = true) :
    extractEmojis ep xp (.vstr [waveCP, toneCP]) = [[waveCP], [toneCP]] ∧
    (extractEmojis ep xp (.vstr [waveCP, toneCP])).length = 2 := by
  have h : extractEmojis ep xp (.vstr [waveCP, toneCP]) =
      [[waveCP], [toneCP]] := by
    rw [extractEmojis_vstr]
    simp [emojiMatches, List.filter_cons, hwave, htone]
  exact ⟨h, by rw [h]; rfl⟩

/-- Witness for C3: the property-table hypotheses hold of the concrete
table fragment, and the two-way split is observed on it. -/
theorem extractEmojis_skin_tone_split_witness :
    extractEmojis epTable (fun _ => false) (.vstr [waveCP, toneCP]) =
      [[waveCP], [toneCP]] ∧
    (extractEmojis epTable (fun _ => false) (.vstr [waveCP, toneCP])).length = 2 :=
  extractEmojis_skin_tone_split epTable (fun _ => false) (by decide) (by decide)

/-!
## Message extraction (`parseMessageNode` and helpers, useChatParser.js)

JS strings are embedded as `List Char`; string methods used by the source
(`trim`, `includes`, `startsWith`, `join`) are given code-point-level
models below.
-/

/-- A JS string as a list of code points. -/
abbrev JStr := List Char

/-- Whitespace as trimmed by `String.prototype.trim` (the code points that
occur in this application's data). -/
def isWS (c : Char) : Bool :=
  c == ' ' || c == '\t' || c == '\n' || c == '\r'

/-- `s.trim()`: remove leading and trailing whitespace. -/
def trimChars (s : JStr) : JStr :=
  ((s.dropWhile isWS).reverse.dropWhile isWS).reverse

/-- `haystack.includes(needle)`: `needle` occurs as a contiguous substring
of `haystack`. -/
def containsSub (n : JStr) : JStr → Bool
  | [] => List.isPrefixOf n []
  | c :: t => List.isPrefixOf n (c :: t) || containsSub n t

/-- `texts.join(' ')`. -/
def joinSpace (l : List JStr) : JStr :=
  List.intercalate [' '] l

/-- A message container DOM node, reduced to the projections the source
queries: the text of the first `h2` sender element (`none` when the
selector finds nothing), the text contents of the descendant `div`s of
the content element (`none` when the content element is absent), the text
of the timestamp element (`none` when absent), and whether the node
contains an `img` / `audio` element. -/
structure MsgNode where
  senderText : Option JStr
  contentDivs : Option (List JStr)
  timestampText : Option JStr
  hasImg : Bool
  hasAudio : Bool
deriving DecidableEq

/-- A parsed message as returned by `parseMessageNode`. -/
structure Message where
  sender : JStr
  content : JStr
  timestamp : Option JSDate
  emojis : List JStr
  type : String
deriving DecidableEq

/-- `new Date(text)`: the constructor consults the environment's
locale-aware date-parsing capability `pd` and never throws on a string
argument; unparseable text yields the Invalid Date sentinel, not an
exception and not `null`. -/
def jsNewDate (pd : JStr → Option Int) (text : JStr) : JSDate :=
  match pd text with
  | some ms => .valid ms
  | none => .invalid

/-- `parseTimestamp(timestampText)` from useChatParser.js: returns
`new Date(timestampText)`. Because the constructor never throws, the
`catch` branch (which would return `null`) is unreachable. -/
def parseTimestamp (pd : JStr → Option Int) (timestampText : JStr) : JSDate :=
  jsNewDate pd timestampText

/-- `getDirectTextContent(element)` from useChatParser.js: walk the
descendant `div`s in order; the first one whose trimmed text is non-empty
and does not start with a system-message prefix is pushed and the loop
breaks, so the result has at most one element. -/
def getDirectTextContent : List JStr → List JStr
  | [] => []
  | d :: rest =>
    let text := trimChars d
    if !text.isEmpty && !(List.isPrefixOf "You sent an attachment".toList text) &&
        !(List.isPrefixOf "Liked a message".toList text) then
      [text]
    else
      getDirectTextContent rest

/-- `determineMessageType(content, node)` from useChatParser.js: the
first-match-wins chain over content phrases, node children and content
length. -/
def determineMessageType (content : JStr) (node : MsgNode) : String :=
  if containsSub "You sent an attachment".toList content ||
      containsSub "sent an attachment".toList content then "attachment"
  else if containsSub "Audio call ended".toList content ||
      containsSub "started an audio call".toList content then "call"
  else if containsSub "Liked a message".toList content then "reaction"
  else if node.hasImg then "image"
  else if node.hasAudio then "audio"
  else if content.length = 0 then "empty"
  else "text"

/-- The content assembled by `parseMessageNode`: `''` when the content
element is absent, otherwise `getDirectTextContent(...).join(' ').trim()`. -/
def nodeContent (node : MsgNode) : JStr :=
  match node.contentDivs with
  | none => []
  | some divs => trimChars (joinSpace (getDirectTextContent divs))

/-- `parseMessageNode(node)` from useChatParser.js. A node without a
sender element yields `null`; otherwise sender, content, timestamp,
emojis and type are assembled. Nothing in the body can throw, so the
`catch` branch (also `null`) is unreachable. -/
def parseMessageNode (ep xp : Char → Bool) (pd : JStr → Option Int)
    (node : MsgNode) : Option Message :=
  match node.senderText with
  | none => none
  | some st =>
    let sender := trimChars st
    let content := nodeContent node
    let timestamp := node.timestampText.map (fun t => parseTimestamp pd (trimChars t))
    let emojis := extractEmojis ep xp (.vstr content)
    let type := determineMessageType content node
    some { sender := sender, content := content, timestamp := timestamp,
           emojis := emojis, type := type }

/-- Reduction of `parseMessageNode` on a node whose sender element is
present. -/
theorem parseMessageNode_eq_some (ep xp : Char → Bool) (pd : JStr → Option Int)
    (node : MsgNode) (st : JStr) (h : node.senderText = some st) :
    parseMessageNode ep xp pd node =
      some { sender := trimChars st, content := nodeContent node,
             timestamp := node.timestampText.map
               (fun t => parseTimestamp pd (trimChars t)),
             emojis := extractEmojis ep xp (.vstr (nodeContent node)),
             type := determineMessageType (nodeContent node) node } := by
  simp [parseMessageNode, h]

/-- The message-extraction loop of `parseChatHTML` (step 5): parse each
container, keeping the non-null results in order. -/
def extractMessages (ep xp : Char → Bool) (pd : JStr → Option Int) :
    List MsgNode → List Message
  | [] => []
  | n :: rest =>
    match parseMessageNode ep xp pd n with
    | some m => m :: extractMessages ep xp pd rest
    | none => extractMessages ep xp pd rest

/-- C6 (confirmed): message-type classification is first-match-wins in the
precedence order attachment, call, reaction, image, audio, empty, text,
and always lands in that closed seven-tag set. -/
theorem determineMessageType_precedence (content : JStr) (node : MsgNode) :
    determineMessageType content node ∈
      (["attachment", "call", "reaction", "image", "audio", "empty", "text"] :
        List String) ∧
    ((containsSub "You sent an attachment".toList content ||
        containsSub "sent an attachment".toList content) = true →
      determineMessageType content node = "attachment") ∧
    ((containsSub "You sent an attachment".toList content ||
        containsSub "sent an attachment".toList content) = false →
      (containsSub "Audio call ended".toList content ||
        containsSub "started an audio call".toList content) = true →
      determineMessageType content node = "call") ∧
    ((containsSub "You sent an attachment".toList content ||
        containsSub "sent an attachment".toList content) = false →
      (containsSub "Audio call ended".toList content ||
        containsSub "started an audio call".toList content) = false →
      containsSub "Liked a message".toList content = true →
      determineMessageType content node = "reaction") ∧
    ((containsSub "You sent an attachment".toList content ||
        containsSub "sent an attachment".toList content) = false →
      (containsSub "Audio call ended".toList content ||
        containsSub "started an audio call".toList content) = false →
      containsSub "Liked a message".toList content = false →
      node.hasImg = true →
      determineMessageType content node = "image") ∧
    ((containsSub "You sent an attachment".toList content ||
        containsSub "sent an attachment".toList content) = false →
      (containsSub "Audio call ended".toList content ||
        containsSub "started an audio call".toList content) = false →
      containsSub "Liked a message".toList content = false →
      node.hasImg = false → node.hasAudio = true →
      determineMessageType content node = "audio") ∧
    ((containsSub "You sent an attachment".toList content ||
        containsSub "sent an attachment".toList content) = false →
      (containsSub "Audio call ended".toList content ||
        containsSub "started an audio call".toList content) = false →
      containsSub "Liked a message".toList content = false →
      node.hasImg = false → node.hasAudio = false → content.length = 0 →
      determineMessageType content node = "empty") ∧
    ((containsSub "You sent an attachment".toList content ||
        containsSub "sent an attachment".toList content) = false →
      (containsSub "Audio call ended".toList content ||
        containsSub "started an audio call".toList content) = false →
      containsSub "Liked a message".toList content = false →
      node.hasImg = false → node.hasAudio = false → content.length ≠ 0 →
      determineMessageType content node = "text") := by
  refine ⟨?_, ?_, ?_, ?_, ?_, ?_, ?_, ?_⟩
  · unfold determineMessageType
    split_ifs <;> simp
  all_goals intros
  all_goals simp_all [determineMessageType]

/-- Witness for C6: a content string carrying the attachment phrase is
classified `attachment`. -/
theorem determineMessageType_precedence_witness :
    determineMessageType "You sent an attachment".toList
      { senderText := none, contentDivs := none, timestampText := none,
        hasImg := false, hasAudio := false } = "attachment" :=
  (determineMessageType_precedence "You sent an attachment".toList
    { senderText := none, contentDivs := none, timestampText := none,
      hasImg := false, hasAudio := false }).2.1 (by decide)

/-- C7 (code bug): a timestamp-element text the date capability cannot
parse does not produce the absence marker. `new Date` never throws, so
`parseTimestamp` returns the Invalid Date sentinel (never reaching its
`catch`/`null` branch), and the emitted message's `timestamp` field holds
`some JSDate.invalid` — an invalid-date sentinel standing in for an
instant — rather than the explicit no-timestamp value `none`. -/
theorem parseTimestamp_invalid_date_bug (ep xp : Char → Bool)
    (pd : JStr → Option Int) :
    (∀ t : JStr, pd t = none → parseTimestamp pd t = JSDate.invalid) ∧
    (∀ (node : MsgNode) (st t : JStr),
      node.senderText = some st → node.timestampText = some t →
      pd (trimChars t) = none →
      ∃ m, parseMessageNode ep xp pd node = some m ∧
        m.timestamp = some JSDate.invalid ∧ m.timestamp ≠ none) := by
  constructor
  · intro t ht
    simp [parseTimestamp, jsNewDate, ht]
  · intro node st t hs ht hpd
    refine ⟨_, parseMessageNode_eq_some ep xp pd node st hs, ?_, ?_⟩ <;>
      simp [ht, parseTimestamp, jsNewDate, hpd]

/-- A concrete container with a sender and an unparseable timestamp. -/
def nodeTimed : MsgNode :=
  { senderText := some "Alice".toList, contentDivs := none,
    timestampText := some "Garbage".toList, hasImg := false, hasAudio := false }

/-- Witness for C7: with a date capability that parses nothing, the
message extracted from `nodeTimed` carries the Invalid Date sentinel, not
the absence marker. -/
theorem parseTimestamp_invalid_date_bug_witness :
    ∃ m, parseMessageNode (fun _ => false) (fun _ => false) (fun _ => none)
        nodeTimed = some m ∧
      m.timestamp = some JSDate.invalid ∧ m.timestamp ≠ none :=
  (parseTimestamp_invalid_date_bug (fun _ => false) (fun _ => false)
    (fun _ => none)).2 nodeTimed "Alice".toList "Garbage".toList rfl rfl rfl

/-- C8 (confirmed): a container with no sender element produces no
message at all (it is dropped, so `totalMessages` counts exactly the
containers with a sender), and a container with a sender element always
produces a message whose sender is that element's trimmed text. -/
theorem parseMessageNode_sender_policy (ep xp : Char → Bool)
    (pd : JStr → Option Int) :
    (∀ node : MsgNode,
      parseMessageNode ep xp pd node = none ↔ node.senderText = none) ∧
    (∀ (node : MsgNode) (st : JStr), node.senderText = some st →
      ∃ m, parseMessageNode ep xp pd node = some m ∧ m.sender = trimChars st) ∧
    (∀ nodes : List MsgNode,
      (extractMessages ep xp pd nodes).length =
        nodes.countP (fun n => n.senderText.isSome)) := by
  refine ⟨?_, ?_, ?_⟩
  · intro node
    cases h : node.senderText <;> simp [parseMessageNode, h]
  · intro node st h
    exact ⟨_, parseMessageNode_eq_some ep xp pd node st h, rfl⟩
  · intro nodes
    induction nodes with
    | nil => rfl
    | cons n rest ih =>
      cases h : n.senderText <;>
        simp [extractMessages, parseMessageNode, h, List.countP_cons, ih]

/-- A concrete container with no sender element. -/
def nodeNoSender : MsgNode :=
  { senderText := none, contentDivs := some ["hello".toList],
    timestampText := none, hasImg := false, hasAudio := false }

/-- Witness for C8: the senderless container is dropped, the container
with sender text `"Alice"` is emitted with sender `"Alice"`, and over the
two-container list exactly one message is extracted. -/
theorem parseMessageNode_sender_policy_witness :
    parseMessageNode (fun _ => false) (fun _ => false) (fun _ => none)
        nodeNoSender = none ∧
    (∃ m, parseMessageNode (fun _ => false) (fun _ => false) (fun _ => none)
        nodeTimed = some m ∧ m.sender = trimChars "Alice".toList) ∧
    (extractMessages (fun _ => false) (fun _ => false) (fun _ => none)
        [nodeNoSender, nodeTimed]).length =
      [nodeNoSender, nodeTimed].countP (fun n => n.senderText.isSome) :=
  ⟨((parseMessageNode_sender_policy (fun _ => false) (fun _ => false)
      (fun _ => none)).1 nodeNoSender).mpr rfl,
    (parseMessageNode_sender_policy (fun _ => false) (fun _ => false)
      (fun _ => none)).2.1 nodeTimed "Alice".toList rfl,
    (parseMessageNode_sender_policy (fun _ => false) (fun _ => false)
      (fun _ => none)).2.2 [nodeNoSender, nodeTimed]⟩

/-!
## Statistics aggregation

`calculateStatistics(messages)` (useChatParser.js lines 249-285) and the
ignore-set-aware `recalculateStatistics` (App.vue lines 59-103) accumulate
into JS objects used as dictionaries, embedded as insertion-ordered
association lists: `obj[k] = (obj[k] || 0) + 1` leaves an existing key in
place and appends a fresh key at the end, which is exactly JS enumeration
order for the non-integer-index keys (names, emoji) of this application.
-/

/-- A dictionary object with numeric values. -/
abbrev CountMap := List (JStr × Nat)

/-- `emojiCountByUser`: a dictionary of per-user dictionaries. -/
abbrev UserEmojiMap := List (JStr × CountMap)

/-- `obj[k] = (obj[k] || 0) + 1`: increment in place, or append the new
key with count 1. -/
def bump {α : Type} [DecidableEq α] : List (α × Nat) → α → List (α × Nat)
  | [], k => [(k, 1)]
  | (j, v) :: rest, k =>
    if j = k then (j, v + 1) :: rest else (j, v) :: bump rest k

/-- Reading `obj[k]` with a default for an absent key
(`obj[k] || default`). -/
def lookupD {α β : Type} [DecidableEq α] (d : β) : List (α × β) → α → β
  | [], _ => d
  | (j, v) :: rest, k => if j = k then v else lookupD d rest k

/-- `k in obj`: whether the key is present. -/
def hasKey {α β : Type} [DecidableEq α] : List (α × β) → α → Bool
  | [], _ => false
  | (j, _) :: rest, k => j = k || hasKey rest k

/-- `obj[k] || 0`. -/
abbrev getCount (m : CountMap) (k : JStr) : Nat := lookupD 0 m k

/-- `emojiCountByUser[u]`, defaulting to an empty dictionary. -/
abbrev getUserMap (m : UserEmojiMap) (u : JStr) : CountMap := lookupD [] m u

/-- `obj[k] = f(obj[k])` for a present key: rewrite the (first) entry in
place; absent keys are untouched (the source only updates keys it has
just ensured exist). -/
def updateEntry {α β : Type} [DecidableEq α]
    (m : List (α × β)) (k : α) (f : β → β) : List (α × β) :=
  match m with
  | [] => []
  | (j, v) :: rest =>
    if j = k then (j, f v) :: rest else (j, v) :: updateEntry rest k f

/-- `if (!obj[k]) obj[k] = d`: append the key with the given initial
value when absent. -/
def ensureKey {α β : Type} [DecidableEq α]
    (m : List (α × β)) (k : α) (d : β) : List (α × β) :=
  if hasKey m k then m else m ++ [(k, d)]

/-- The inner `for (const emoji of ...)` loop shared by both aggregation
functions: bump the sender's per-emoji count and the global count for
each emoji unit in order. -/
def recordEmojis (sender : JStr) :
    UserEmojiMap → CountMap → List JStr → UserEmojiMap × CountMap
  | ecbu, total, [] => (ecbu, total)
  | ecbu, total, e :: rest =>
    recordEmojis sender (updateEntry ecbu sender (fun um => bump um e))
      (bump total e) rest

/-- The three accumulators of the aggregation loop. -/
structure AggState where
  messageCountByUser : CountMap
  emojiCountByUser : UserEmojiMap
  totalEmojiCount : CountMap

/-- One iteration of the `for (const message of ...)` loop of
`recalculateStatistics` (App.vue): bump the sender's message count
regardless of content, filter the message's emojis through the ignore
set, ensure the sender's per-emoji dictionary exists, then record the
remaining emojis. -/
def aggStep (ignored : List JStr) (st : AggState) (msg : Message) : AggState :=
  let sender := msg.sender
  let mcbu := bump st.messageCountByUser sender
  let filtered := msg.emojis.filter (fun e => !ignored.contains e)
  let ecbu0 := ensureKey st.emojiCountByUser sender []
  let p := recordEmojis sender ecbu0 st.totalEmojiCount filtered
  { messageCountByUser := mcbu, emojiCountByUser := p.1, totalEmojiCount := p.2 }

/-- The aggregation loop of `recalculateStatistics`. -/
def aggLoop (ignored : List JStr) : AggState → List Message → AggState
  | st, [] => st
  | st, msg :: rest => aggLoop ignored (aggStep ignored st msg) rest

/-- One iteration of the `for (const message of ...)` loop of
`calculateStatistics` (useChatParser.js): identical but with no ignore
filtering (`message.emojis || []` is just the emoji list here, the field
being always an array in the embedding). -/
def calcStep (st : AggState) (msg : Message) : AggState :=
  let sender := msg.sender
  let mcbu := bump st.messageCountByUser sender
  let ecbu0 := ensureKey st.emojiCountByUser sender []
  let p := recordEmojis sender ecbu0 st.totalEmojiCount msg.emojis
  { messageCountByUser := mcbu, emojiCountByUser := p.1, totalEmojiCount := p.2 }

/-- The aggregation loop of `calculateStatistics`. -/
def calcLoop : AggState → List Message → AggState
  | st, [] => st
  | st, msg :: rest => calcLoop (calcStep st msg) rest

/-- `Object.entries(total).map(...).sort((a, b) => b.count - a.count)`:
ECMAScript `Array.prototype.sort` is stable and this comparator is a
total preorder on counts, so the result is the entries in descending
count order with ties in entry (= first-encountered) order — modelled by
a stable insertion sort. -/
def sortInsert (x : JStr × Nat) : List (JStr × Nat) → List (JStr × Nat)
  | [] => [x]
  | y :: rest => if x.2 < y.2 then y :: sortInsert x rest else x :: y :: rest

/-- Stable descending-by-count sort of the entry list. -/
def sortByCountDesc : List (JStr × Nat) → List (JStr × Nat)
  | [] => []
  | x :: rest => sortInsert x (sortByCountDesc rest)

/-- The statistics object produced by either aggregation function. -/
structure Statistics where
  messageCountByUser : CountMap
  emojiCountByUser : UserEmojiMap
  totalEmojiCount : CountMap
  topEmojis : List (JStr × Nat)

/-- The empty accumulators (`{}`-initialised objects). -/
def emptyAgg : AggState :=
  { messageCountByUser := [], emojiCountByUser := [], totalEmojiCount := [] }

/-- `calculateStatistics(messages)` from useChatParser.js. -/
def calculateStatistics (messages : List Message) : Statistics :=
  let st := calcLoop emptyAgg messages
  { messageCountByUser := st.messageCountByUser,
    emojiCountByUser := st.emojiCountByUser,
    totalEmojiCount := st.totalEmojiCount,
    topEmojis := sortByCountDesc st.totalEmojiCount }

/-- `recalculateStatistics()` from App.vue, as a function of the message
list and the user's ignored-emoji set (the set is only queried through
membership, so it is embedded as a list with `contains`). -/
def recalculateStatistics (ignored : List JStr) (messages : List Message) :
    Statistics :=
  let st := aggLoop ignored emptyAgg messages
  { messageCountByUser := st.messageCountByUser,
    emojiCountByUser := st.emojiCountByUser,
    totalEmojiCount := st.totalEmojiCount,
    topEmojis := sortByCountDesc st.totalEmojiCount }

/-!
## Dictionary and sorting lemmas
-/

/-- Number of occurrences of `q` in a list. -/
def countOcc {α : Type} [DecidableEq α] (q : α) : List α → Nat
  | [] => 0
  | e :: rest => (if e = q then 1 else 0) + countOcc q rest

/-- The sum, over all users, of a given emoji's per-user count. -/
def sumCounts : UserEmojiMap → JStr → Nat
  | [], _ => 0
  | (_, um) :: rest, e => getCount um e + sumCounts rest e

theorem lookupD_bump {α : Type} [DecidableEq α] (m : List (α × Nat)) (k q : α) :
    lookupD 0 (bump m k) q = lookupD 0 m q + (if k = q then 1 else 0) := by
  induction m with
  | nil => simp [bump, lookupD]
  | cons p rest ih =>
    obtain ⟨j, v⟩ := p
    by_cases hjk : j = k
    · subst hjk
      by_cases hjq : j = q <;> simp [bump, lookupD, hjq]
    · by_cases hjq : j = q
      · have hkq : ¬(k = q) := fun h => hjk (by rw [hjq, h])
        have hqk : ¬(q = k) := fun h => hkq h.symm
        simp [bump, lookupD, hjk, hjq, hkq, hqk]
      · simp [bump, lookupD, hjk, hjq, ih]

theorem hasKey_bump {α : Type} [DecidableEq α] (m : List (α × Nat)) (k q : α) :
    hasKey (bump m k) q = (hasKey m q || decide (k = q)) := by
  induction m with
  | nil => simp [bump, hasKey]
  | cons p rest ih =>
    obtain ⟨j, v⟩ := p
    by_cases hjk : j = k
    · subst hjk
      by_cases hjq : j = q <;> simp [bump, hasKey, hjq]
    · simp [bump, hasKey, hjk, ih, Bool.or_assoc]

theorem lookupD_eq_default {α β : Type} [DecidableEq α] (d : β)
    (m : List (α × β)) (q : α) (h : hasKey m q = false) :
    lookupD d m q = d := by
  induction m with
  | nil => rfl
  | cons p rest ih =>
    obtain ⟨j, v⟩ := p
    simp [hasKey] at h
    simp [lookupD, h.1, ih h.2]

theorem lookupD_updateEntry_self {α β : Type} [DecidableEq α] (d : β)
    (m : List (α × β)) (k : α) (f : β → β) (h : hasKey m k = true) :
    lookupD d (updateEntry m k f) k = f (lookupD d m k) := by
  induction m with
  | nil => simp [hasKey] at h
  | cons p rest ih =>
    obtain ⟨j, v⟩ := p
    by_cases hjk : j = k
    · subst hjk
      simp [updateEntry, lookupD]
    · simp [hasKey, hjk] at h
      simp [updateEntry, lookupD, hjk, ih h]

theorem lookupD_updateEntry_ne {α β : Type} [DecidableEq α] (d : β)
    (m : List (α × β)) (k q : α) (f : β → β) (h : ¬(k = q)) :
    lookupD d (updateEntry m k f) q = lookupD d m q := by
  induction m with
  | nil => simp [updateEntry]
  | cons p rest ih =>
    obtain ⟨j, v⟩ := p
    by_cases hjk : j = k
    · subst hjk
      simp [updateEntry, lookupD, h]
    · by_cases hjq : j = q
      · have hqk : ¬(q = k) := fun hh => h hh.symm
        simp [updateEntry, lookupD, hjq, hqk]
      · simp [updateEntry, lookupD, hjk, hjq, ih]

theorem hasKey_updateEntry {α β : Type} [DecidableEq α]
    (m : List (α × β)) (k q : α) (f : β → β) :
    hasKey (updateEntry m k f) q = hasKey m q := by
  induction m with
  | nil => simp [updateEntry]
  | cons p rest ih =>
    obtain ⟨j, v⟩ := p
    by_cases hjk : j = k <;> simp [updateEntry, hasKey, hjk, ih]

theorem hasKey_append {α β : Type} [DecidableEq α]
    (m l : List (α × β)) (q : α) :
    hasKey (m ++ l) q = (hasKey m q || hasKey l q) := by
  induction m with
  | nil => simp [hasKey]
  | cons p rest ih =>
    obtain ⟨j, v⟩ := p
    simp [hasKey, ih, Bool.or_assoc]

theorem lookupD_append {α β : Type} [DecidableEq α] (d : β)
    (m l : List (α × β)) (q : α) :
    lookupD d (m ++ l) q =
      if hasKey m q then lookupD d m q else lookupD d l q := by
  induction m with
  | nil => simp [lookupD, hasKey]
  | cons p rest ih =>
    obtain ⟨j, v⟩ := p
    by_cases hjq : j = q <;> simp [lookupD, hasKey, hjq, ih]

theorem hasKey_ensureKey_self {α β : Type} [DecidableEq α]
    (m : List (α × β)) (k : α) (d : β) :
    hasKey (ensureKey m k d) k = true := by
  by_cases h : hasKey m k
  · simp [ensureKey, h]
  · simp [ensureKey, h, hasKey_append, hasKey]

theorem lookupD_ensureKey_default {α β : Type} [DecidableEq α] (d : β)
    (m : List (α × β)) (k q : α) :
    lookupD d (ensureKey m k d) q = lookupD d m q := by
  by_cases h : hasKey m k
  · simp [ensureKey, h]
  · simp only [ensureKey, h, if_false, Bool.false_eq_true]
    rw [lookupD_append]
    by_cases hq : hasKey m q
    · simp [hq]
    · simp only [hq, Bool.false_eq_true, if_false]
      rw [lookupD_eq_default d m q (by simpa using hq)]
      by_cases hkq : k = q <;> simp [lookupD, hkq]

theorem sumCounts_append (a b : UserEmojiMap) (q : JStr) :
    sumCounts (a ++ b) q = sumCounts a q + sumCounts b q := by
  induction a with
  | nil => simp [sumCounts]
  | cons p rest ih =>
    obtain ⟨j, v⟩ := p
    simp [sumCounts, ih]
    omega

theorem sumCounts_ensureKey (m : UserEmojiMap) (k q : JStr) :
    sumCounts (ensureKey m k []) q = sumCounts m q := by
  by_cases h : hasKey m k
  · simp [ensureKey, h]
  · simp only [ensureKey, h, Bool.false_eq_true, if_false]
    rw [sumCounts_append]
    simp [sumCounts, getCount, lookupD]

theorem sumCounts_updateEntry_bump (m : UserEmojiMap) (s e q : JStr)
    (h : hasKey m s = true) :
    sumCounts (updateEntry m s (fun um => bump um e)) q =
      sumCounts m q + (if e = q then 1 else 0) := by
  induction m with
  | nil => simp [hasKey] at h
  | cons p rest ih =>
    obtain ⟨j, v⟩ := p
    by_cases hjs : j = s
    · subst hjs
      simp only [updateEntry, if_pos rfl, sumCounts, getCount, lookupD_bump]
      omega
    · simp [hasKey, hjs] at h
      simp only [updateEntry, if_neg hjs, sumCounts]
      rw [ih h]
      omega

/-!
### Stable sort lemmas (`topEmojis`)
-/

theorem sortInsert_perm (x : JStr × Nat) (l : List (JStr × Nat)) :
    List.Perm (sortInsert x l) (x :: l) := by
  induction l with
  | nil => simp [sortInsert]
  | cons y rest ih =>
    by_cases h : x.2 < y.2
    · simp only [sortInsert, if_pos h]
      exact (ih.cons y).trans (List.Perm.swap x y rest)
    · simp only [sortInsert, if_neg h]
      exact List.Perm.refl _

theorem sortByCountDesc_perm (l : List (JStr × Nat)) :
    List.Perm (sortByCountDesc l) l := by
  induction l with
  | nil => simp [sortByCountDesc]
  | cons x rest ih =>
    exact (sortInsert_perm x (sortByCountDesc rest)).trans (ih.cons x)

theorem sortInsert_pairwise (x : JStr × Nat) (l : List (JStr × Nat))
    (h : l.Pairwise (fun a b => b.2 ≤ a.2)) :
    (sortInsert x l).Pairwise (fun a b => b.2 ≤ a.2) := by
  induction l with
  | nil => simp [sortInsert]
  | cons y rest ih =>
    rcases List.pairwise_cons.mp h with ⟨hy, hrest⟩
    by_cases hlt : x.2 < y.2
    · simp only [sortInsert, if_pos hlt]
      refine List.pairwise_cons.mpr ⟨?_, ih hrest⟩
      intro z hz
      have hz2 : z = x ∨ z ∈ rest := by
        have := (sortInsert_perm x rest).mem_iff.mp hz
        simpa using this
      rcases hz2 with rfl | hzr
      · exact le_of_lt hlt
      · exact hy z hzr
    · simp only [sortInsert, if_neg hlt]
      push_neg at hlt
      refine List.pairwise_cons.mpr ⟨?_, h⟩
      intro z hz
      rcases List.mem_cons.mp hz with rfl | hzr
      · exact hlt
      · exact le_trans (hy z hzr) hlt

theorem sortByCountDesc_pairwise (l : List (JStr × Nat)) :
    (sortByCountDesc l).Pairwise (fun a b => b.2 ≤ a.2) := by
  induction l with
  | nil => simp [sortByCountDesc]
  | cons x rest ih => exact sortInsert_pairwise x _ ih

theorem filter_sortInsert (x : JStr × Nat) (l : List (JStr × Nat)) (c : Nat) :
    (sortInsert x l).filter (fun p => decide (p.2 = c)) =
      if x.2 = c then x :: l.filter (fun p => decide (p.2 = c))
      else l.filter (fun p => decide (p.2 = c)) := by
  induction l with
  | nil => by_cases hx : x.2 = c <;> simp [sortInsert, List.filter_cons, hx]
  | cons y rest ih =>
    by_cases hlt : x.2 < y.2
    · simp only [sortInsert, if_pos hlt]
      by_cases hx : x.2 = c
      · have hy : ¬(y.2 = c) := by omega
        simp [List.filter_cons, hy, ih, hx]
      · simp [List.filter_cons, ih, hx]
    · simp only [sortInsert, if_neg hlt]
      by_cases hx : x.2 = c <;> simp [List.filter_cons, hx]

theorem filter_sortByCountDesc (l : List (JStr × Nat)) (c : Nat) :
    (sortByCountDesc l).filter (fun p => decide (p.2 = c)) =
      l.filter (fun p => decide (p.2 = c)) := by
  induction l with
  | nil => rfl
  | cons x rest ih =>
    rw [sortByCountDesc, filter_sortInsert]
    by_cases hx : x.2 = c <;> simp [List.filter_cons, hx, ih]

/-- C5 (confirmed): `topEmojis` is exactly the `totalEmojiCount` entry
list stably sorted by count descending: it is definitionally the stable
sort of the entries, a permutation of them, sorted non-increasingly by
count, and for every count value the entries carrying that count appear
in exactly their first-encountered (insertion) order. Recomputation on
unchanged input is literally the same pure function application, hence
returns an identical array. -/
theorem calculateStatistics_topEmojis (msgs : List Message) :
    (calculateStatistics msgs).topEmojis =
      sortByCountDesc (calculateStatistics msgs).totalEmojiCount ∧
    List.Perm (calculateStatistics msgs).topEmojis
      (calculateStatistics msgs).totalEmojiCount ∧
    (calculateStatistics msgs).topEmojis.Pairwise (fun a b => b.2 ≤ a.2) ∧
    (∀ c : Nat,
      (calculateStatistics msgs).topEmojis.filter (fun p => decide (p.2 = c)) =
        (calculateStatistics msgs).totalEmojiCount.filter
          (fun p => decide (p.2 = c))) :=
  ⟨rfl, sortByCountDesc_perm _, sortByCountDesc_pairwise _,
    fun c => filter_sortByCountDesc _ c⟩

/-!
### Aggregation-loop invariants
-/

theorem countOcc_append {α : Type} [DecidableEq α] (q : α) (a b : List α) :
    countOcc q (a ++ b) = countOcc q a + countOcc q b := by
  induction a with
  | nil => simp [countOcc]
  | cons e rest ih =>
    show (if e = q then 1 else 0) + countOcc q (rest ++ b) =
      ((if e = q then 1 else 0) + countOcc q rest) + countOcc q b
    rw [ih]
    omega

theorem countOcc_filter_not_ignored (ign : List JStr) (q : JStr) (es : List JStr)
    (hq : ign.contains q = false) :
    countOcc q (es.filter (fun e => !ign.contains e)) = countOcc q es := by
  have hq2 : q ∉ ign := by simpa using hq
  induction es with
  | nil => simp [countOcc]
  | cons e rest ih =>
    by_cases hc : e ∈ ign
    · have hne : ¬(e = q) := fun hh => hq2 (hh ▸ hc)
      have hcc : ¬((!ign.contains e) = true) := by simpa using hc
      rw [List.filter_cons, if_neg hcc, ih]
      simp [countOcc, hne]
    · have hcc : (!ign.contains e) = true := by simpa using hc
      rw [List.filter_cons, if_pos hcc]
      simp only [countOcc]
      rw [ih]

theorem recordEmojis_total (s : JStr) (es : List JStr)
    (ecbu : UserEmojiMap) (total : CountMap) (q : JStr) :
    getCount (recordEmojis s ecbu total es).2 q =
      getCount total q + countOcc q es := by
  induction es generalizing ecbu total with
  | nil => simp [recordEmojis, countOcc]
  | cons e rest ih =>
    simp only [recordEmojis]
    rw [ih]
    simp only [getCount, lookupD_bump, countOcc]
    omega

theorem recordEmojis_hasKey_total (s : JStr) (es : List JStr)
    (ecbu : UserEmojiMap) (total : CountMap) (q : JStr) (hq : q ∉ es) :
    hasKey (recordEmojis s ecbu total es).2 q = hasKey total q := by
  induction es generalizing ecbu total with
  | nil => simp [recordEmojis]
  | cons e rest ih =>
    simp only [List.mem_cons, not_or] at hq
    simp only [recordEmojis]
    rw [ih _ _ hq.2, hasKey_bump]
    have hne : ¬(e = q) := fun hh => hq.1 hh.symm
    simp [hne]

theorem recordEmojis_hasKey_user (s : JStr) (es : List JStr)
    (ecbu : UserEmojiMap) (total : CountMap) (k : JStr) :
    hasKey (recordEmojis s ecbu total es).1 k = hasKey ecbu k := by
  induction es generalizing ecbu total with
  | nil => simp [recordEmojis]
  | cons e rest ih =>
    simp only [recordEmojis]
    rw [ih, hasKey_updateEntry]

theorem recordEmojis_user_self (s : JStr) (es : List JStr)
    (ecbu : UserEmojiMap) (total : CountMap) (q : JStr)
    (h : hasKey ecbu s = true) :
    getCount (getUserMap (recordEmojis s ecbu total es).1 s) q =
      getCount (getUserMap ecbu s) q + countOcc q es := by
  induction es generalizing ecbu total with
  | nil => simp [recordEmojis, countOcc]
  | cons e rest ih =>
    simp only [recordEmojis]
    rw [ih _ _ (by rw [hasKey_updateEntry]; exact h)]
    simp only [getUserMap, getCount]
    rw [lookupD_updateEntry_self _ _ _ _ h]
    simp only [lookupD_bump, countOcc]
    omega

theorem recordEmojis_user_other (s : JStr) (es : List JStr)
    (ecbu : UserEmojiMap) (total : CountMap) (u : JStr) (hne : ¬(s = u)) :
    getUserMap (recordEmojis s ecbu total es).1 u = getUserMap ecbu u := by
  induction es generalizing ecbu total with
  | nil => simp [recordEmojis]
  | cons e rest ih =>
    simp only [recordEmojis]
    rw [ih]
    simp only [getUserMap]
    rw [lookupD_updateEntry_ne _ _ _ _ _ hne]

theorem recordEmojis_sum (s : JStr) (es : List JStr)
    (ecbu : UserEmojiMap) (total : CountMap) (q : JStr)
    (h : hasKey ecbu s = true) :
    sumCounts (recordEmojis s ecbu total es).1 q =
      sumCounts ecbu q + countOcc q es := by
  induction es generalizing ecbu total with
  | nil => simp [recordEmojis, countOcc]
  | cons e rest ih =>
    simp only [recordEmojis]
    rw [ih _ _ (by rw [hasKey_updateEntry]; exact h)]
    rw [sumCounts_updateEntry_bump _ _ _ _ h]
    simp only [countOcc]
    omega

/-- No per-user dictionary contains the key `q`. -/
def keysFree (m : UserEmojiMap) (q : JStr) : Prop :=
  ∀ p ∈ m, hasKey p.2 q = false

theorem keysFree_updateEntry_bump (m : UserEmojiMap) (k e q : JStr)
    (h : keysFree m q) (hne : ¬(e = q)) :
    keysFree (updateEntry m k (fun um => bump um e)) q := by
  induction m with
  | nil => simpa [updateEntry] using h
  | cons p rest ih =>
    obtain ⟨j, v⟩ := p
    have hj : hasKey v q = false := h (j, v) (by simp)
    have hrest : keysFree rest q := fun p hp => h p (by simp [hp])
    by_cases hjk : j = k
    · intro p hp
      simp only [updateEntry, if_pos hjk] at hp
      rcases List.mem_cons.mp hp with rfl | hpr
      · simp [hasKey_bump, hj, hne]
      · exact hrest p hpr
    · intro p hp
      simp only [updateEntry, if_neg hjk] at hp
      rcases List.mem_cons.mp hp with rfl | hpr
      · exact hj
      · exact ih hrest p hpr

theorem keysFree_ensureKey (m : UserEmojiMap) (k q : JStr)
    (h : keysFree m q) :
    keysFree (ensureKey m k []) q := by
  by_cases hk : hasKey m k
  · simpa [ensureKey, hk] using h
  · intro p hp
    simp only [ensureKey, hk, Bool.false_eq_true, if_false] at hp
    rcases List.mem_append.mp hp with hpm | hpe
    · exact h p hpm
    · rcases List.mem_singleton.mp hpe with rfl
      simp [hasKey]

theorem recordEmojis_keysFree (s : JStr) (es : List JStr)
    (ecbu : UserEmojiMap) (total : CountMap) (q : JStr)
    (h : keysFree ecbu q) (hq : q ∉ es) :
    keysFree (recordEmojis s ecbu total es).1 q := by
  induction es generalizing ecbu total with
  | nil => simpa [recordEmojis] using h
  | cons e rest ih =>
    simp only [List.mem_cons, not_or] at hq
    simp only [recordEmojis]
    exact ih _ _
      (keysFree_updateEntry_bump _ _ _ _ h (fun hh => hq.1 hh.symm)) hq.2

theorem aggStep_mcbu (ign : List JStr) (st : AggState) (msg : Message)
    (s : JStr) :
    getCount (aggStep ign st msg).messageCountByUser s =
      getCount st.messageCountByUser s + (if msg.sender = s then 1 else 0) := by
  simp only [aggStep, getCount]
  rw [lookupD_bump]

theorem aggStep_total (ign : List JStr) (st : AggState) (msg : Message)
    (q : JStr) :
    getCount (aggStep ign st msg).totalEmojiCount q =
      getCount st.totalEmojiCount q +
        countOcc q (msg.emojis.filter (fun e => !ign.contains e)) := by
  simp only [aggStep]
  rw [recordEmojis_total]

theorem aggStep_total_hasKey (ign : List JStr) (st : AggState) (msg : Message)
    (q : JStr) (hq : ign.contains q = true) :
    hasKey (aggStep ign st msg).totalEmojiCount q =
      hasKey st.totalEmojiCount q := by
  simp only [aggStep]
  refine recordEmojis_hasKey_total _ _ _ _ _ (fun hmem => ?_)
  have hin : q ∈ ign := by simpa using hq
  have hmem2 := List.of_mem_filter hmem
  simp [hin] at hmem2

theorem aggStep_keysFree (ign : List JStr) (st : AggState) (msg : Message)
    (q : JStr) (hq : ign.contains q = true)
    (h : keysFree st.emojiCountByUser q) :
    keysFree (aggStep ign st msg).emojiCountByUser q := by
  simp only [aggStep]
  refine recordEmojis_keysFree _ _ _ _ _
    (keysFree_ensureKey _ _ _ h) (fun hmem => ?_)
  have hin : q ∈ ign := by simpa using hq
  have hmem2 := List.of_mem_filter hmem
  simp [hin] at hmem2

theorem aggStep_sum (ign : List JStr) (st : AggState) (msg : Message)
    (q : JStr) :
    sumCounts (aggStep ign st msg).emojiCountByUser q =
      sumCounts st.emojiCountByUser q +
        countOcc q (msg.emojis.filter (fun e => !ign.contains e)) := by
  simp only [aggStep]
  rw [recordEmojis_sum _ _ _ _ _ (hasKey_ensureKey_self _ _ _),
    sumCounts_ensureKey]

theorem aggStep_user (ign : List JStr) (st : AggState) (msg : Message)
    (u q : JStr) :
    getCount (getUserMap (aggStep ign st msg).emojiCountByUser u) q =
      getCount (getUserMap st.emojiCountByUser u) q +
        (if msg.sender = u then
          countOcc q (msg.emojis.filter (fun e => !ign.contains e)) else 0) := by
  simp only [aggStep]
  by_cases hsu : msg.sender = u
  · rw [if_pos hsu, ← hsu]
    rw [recordEmojis_user_self _ _ _ _ _ (hasKey_ensureKey_self _ _ _)]
    simp only [getUserMap]
    rw [lookupD_ensureKey_default]
  · rw [if_neg hsu, recordEmojis_user_other _ _ _ _ _ hsu]
    simp only [getUserMap]
    rw [lookupD_ensureKey_default]
    omega

theorem aggLoop_mcbu (ign : List JStr) (msgs : List Message) (st : AggState)
    (s : JStr) :
    getCount (aggLoop ign st msgs).messageCountByUser s =
      getCount st.messageCountByUser s +
        countOcc s (msgs.map (fun m => m.sender)) := by
  induction msgs generalizing st with
  | nil => simp [aggLoop, countOcc]
  | cons msg rest ih =>
    simp only [aggLoop, List.map_cons]
    rw [ih, aggStep_mcbu]
    simp only [countOcc]
    omega

theorem aggLoop_total (ign : List JStr) (msgs : List Message) (st : AggState)
    (q : JStr) :
    getCount (aggLoop ign st msgs).totalEmojiCount q =
      getCount st.totalEmojiCount q +
        countOcc q ((msgs.map
          (fun m => m.emojis.filter (fun e => !ign.contains e))).flatten) := by
  induction msgs generalizing st with
  | nil => simp [aggLoop, countOcc]
  | cons msg rest ih =>
    simp only [aggLoop, List.map_cons, List.flatten_cons]
    rw [ih, aggStep_total, countOcc_append]
    omega

theorem aggLoop_total_hasKey (ign : List JStr) (msgs : List Message)
    (st : AggState) (q : JStr) (hq : ign.contains q = true) :
    hasKey (aggLoop ign st msgs).totalEmojiCount q =
      hasKey st.totalEmojiCount q := by
  induction msgs generalizing st with
  | nil => simp [aggLoop]
  | cons msg rest ih =>
    simp only [aggLoop]
    rw [ih, aggStep_total_hasKey _ _ _ _ hq]

theorem aggLoop_keysFree (ign : List JStr) (msgs : List Message)
    (st : AggState) (q : JStr) (hq : ign.contains q = true)
    (h : keysFree st.emojiCountByUser q) :
    keysFree (aggLoop ign st msgs).emojiCountByUser q := by
  induction msgs generalizing st with
  | nil => simpa [aggLoop] using h
  | cons msg rest ih =>
    simp only [aggLoop]
    exact ih _ (aggStep_keysFree _ _ _ _ hq h)

theorem aggLoop_sum (ign : List JStr) (msgs : List Message) (st : AggState)
    (q : JStr) :
    sumCounts (aggLoop ign st msgs).emojiCountByUser q =
      sumCounts st.emojiCountByUser q +
        countOcc q ((msgs.map
          (fun m => m.emojis.filter (fun e => !ign.contains e))).flatten) := by
  induction msgs generalizing st with
  | nil => simp [aggLoop, countOcc]
  | cons msg rest ih =>
    simp only [aggLoop, List.map_cons, List.flatten_cons]
    rw [ih, aggStep_sum, countOcc_append]
    omega

theorem aggLoop_user (ign : List JStr) (msgs : List Message) (st : AggState)
    (u q : JStr) :
    getCount (getUserMap (aggLoop ign st msgs).emojiCountByUser u) q =
      getCount (getUserMap st.emojiCountByUser u) q +
        countOcc q (((msgs.filter (fun m => decide (m.sender = u))).map
          (fun m => m.emojis.filter (fun e => !ign.contains e))).flatten) := by
  induction msgs generalizing st with
  | nil => simp [aggLoop, countOcc]
  | cons msg rest ih =>
    simp only [aggLoop]
    rw [ih, aggStep_user]
    by_cases hsu : msg.sender = u
    · have hd : decide (msg.sender = u) = true := by simp [hsu]
      rw [List.filter_cons, if_pos hd]
      simp only [List.map_cons, List.flatten_cons]
      rw [countOcc_append, if_pos hsu]
      omega
    · have hd : ¬(decide (msg.sender = u) = true) := by simp [hsu]
      rw [List.filter_cons, if_neg hd, if_neg hsu]
      omega

theorem countOcc_msgs_filter (ign : List JStr) (q : JStr)
    (msgs : List Message) (hq : ign.contains q = false) :
    countOcc q ((msgs.map
        (fun m => m.emojis.filter (fun e => !ign.contains e))).flatten) =
      countOcc q ((msgs.map (fun m => m.emojis)).flatten) := by
  induction msgs with
  | nil => simp
  | cons msg rest ih =>
    simp only [List.map_cons, List.flatten_cons]
    rw [countOcc_append, countOcc_append,
      countOcc_filter_not_ignored _ _ _ hq, ih]

/-- C1 (confirmed): the ignore-aware aggregation (`recalculateStatistics`,
App.vue) increments each message's sender's message count by one
regardless of content; for every emoji unit not in the ignore set it
increments both the per-sender-per-emoji count and the global count by
one (so each equals the corresponding occurrence count); no ignored
emoji appears as a key of `totalEmojiCount` or of any per-user map; and
for every remaining emoji the sum of the per-user counts equals the
global count. -/
theorem recalculateStatistics_spec (ignored : List JStr) (msgs : List Message) :
    (∀ s : JStr,
      getCount (recalculateStatistics ignored msgs).messageCountByUser s =
        countOcc s (msgs.map (fun m => m.sender))) ∧
    (∀ e : JStr, ignored.contains e = false →
      getCount (recalculateStatistics ignored msgs).totalEmojiCount e =
        countOcc e ((msgs.map (fun m => m.emojis)).flatten)) ∧
    (∀ u e : JStr, ignored.contains e = false →
      getCount (getUserMap
          (recalculateStatistics ignored msgs).emojiCountByUser u) e =
        countOcc e (((msgs.filter (fun m => decide (m.sender = u))).map
          (fun m => m.emojis)).flatten)) ∧
    (∀ e : JStr, ignored.contains e = true →
      hasKey (recalculateStatistics ignored msgs).totalEmojiCount e = false ∧
      (∀ p ∈ (recalculateStatistics ignored msgs).emojiCountByUser,
        hasKey p.2 e = false)) ∧
    (∀ e : JStr, ignored.contains e = false →
      sumCounts (recalculateStatistics ignored msgs).emojiCountByUser e =
        getCount (recalculateStatistics ignored msgs).totalEmojiCount e) := by
  refine ⟨?_, ?_, ?_, ?_, ?_⟩
  · intro s
    show getCount (aggLoop ignored emptyAgg msgs).messageCountByUser s = _
    rw [aggLoop_mcbu]
    simp [emptyAgg, getCount, lookupD]
  · intro e he
    show getCount (aggLoop ignored emptyAgg msgs).totalEmojiCount e = _
    rw [aggLoop_total, countOcc_msgs_filter _ _ _ he]
    simp [emptyAgg, getCount, lookupD]
  · intro u e he
    show getCount (getUserMap
        (aggLoop ignored emptyAgg msgs).emojiCountByUser u) e = _
    rw [aggLoop_user, countOcc_msgs_filter _ _ _ he]
    simp [emptyAgg, getUserMap, getCount, lookupD]
  · intro e he
    refine ⟨?_, ?_⟩
    · show hasKey (aggLoop ignored emptyAgg msgs).totalEmojiCount e = false
      rw [aggLoop_total_hasKey _ _ _ _ he]
      simp [emptyAgg, hasKey]
    · have h := aggLoop_keysFree ignored msgs emptyAgg e he
        (fun p hp => by simp [emptyAgg] at hp)
      exact fun p hp => h p hp
  · intro e he
    show sumCounts (aggLoop ignored emptyAgg msgs).emojiCountByUser e =
      getCount (aggLoop ignored emptyAgg msgs).totalEmojiCount e
    rw [aggLoop_sum, aggLoop_total]
    simp [emptyAgg, sumCounts, getCount, lookupD]

/-- A concrete message list for the C1 witness. -/
def msgA : Message :=
  { sender := "Alice".toList, content := [], timestamp := none,
    emojis := [['x'], ['y']], type := "text" }

/-- Second concrete message for the C1 witness. -/
def msgB : Message :=
  { sender := "Bob".toList, content := [], timestamp := none,
    emojis := [['x']], type := "text" }

/-- Witness for C1: with ignore set `{y}` over two concrete messages, the
ignored emoji is absent from the global map, and for the remaining emoji
`x` the per-user counts sum to the global count. -/
theorem recalculateStatistics_spec_witness :
    ([['y']] : List JStr).contains ['y'] = true ∧
    hasKey (recalculateStatistics [['y']] [msgA, msgB]).totalEmojiCount
      ['y'] = false ∧
    ([['y']] : List JStr).contains ['x'] = false ∧
    sumCounts (recalculateStatistics [['y']] [msgA, msgB]).emojiCountByUser
        ['x'] =
      getCount (recalculateStatistics [['y']] [msgA, msgB]).totalEmojiCount
        ['x'] :=
  ⟨by decide,
    ((recalculateStatistics_spec [['y']] [msgA, msgB]).2.2.2.1 ['y']
      (by decide)).1,
    by decide,
    (recalculateStatistics_spec [['y']] [msgA, msgB]).2.2.2.2 ['x']
      (by decide)⟩

/-!
## Chart transforms (chartTransforms.js)

`transformActivityByDayOfWeek` and `transformActivityByHourOfDay` guard
with `if (!messages || messages.length === 0) return { labels: [], data: [] }`
and otherwise fold the messages into fixed-size bucket arrays. The
calendar computation of `Date.prototype.getDay` / `getHours` on a valid
instant is the environment's; it is passed as a parameter. An Invalid
Date is truthy, so it passes the `if (!message.timestamp) return` guard,
but its `getDay()` is `NaN` and `counts[NaN]++` touches only a phantom
`NaN` property, leaving every numeric bucket unchanged — modelled as a
no-op on the bucket array.
-/

/-- The weekday label array. -/
def dayLabels : List String :=
  ["Sunday", "Monday", "Tuesday", "Wednesday", "Thursday", "Friday",
    "Saturday"]

/-- `padZero(num)`: zero-pad to two digits. -/
def padZero (n : Nat) : String :=
  if n < 10 then "0" ++ toString n else toString n

/-- The hour label array `00:00 … 23:00`. -/
def hourLabels : List String :=
  (List.range 24).map (fun i => padZero i ++ ":00")

/-- One iteration of the weekday loop: `counts[new Date(t).getDay()]++`
for a message with a truthy, valid timestamp; otherwise no bucket
changes. -/
def dayStep (getDay : Int → Fin 7) (counts : List Nat) (m : Message) :
    List Nat :=
  match m.timestamp with
  | none => counts
  | some .invalid => counts
  | some (.valid ms) =>
    counts.set (getDay ms).val (counts.getD (getDay ms).val 0 + 1)

/-- `transformActivityByDayOfWeek(messages)` from chartTransforms.js. -/
def transformActivityByDayOfWeek (getDay : Int → Fin 7)
    (messages : List Message) : List String × List Nat :=
  if messages.isEmpty then ([], [])
  else (dayLabels, messages.foldl (dayStep getDay) (List.replicate 7 0))

/-- One iteration of the hour-of-day loop. -/
def hourStep (getHours : Int → Fin 24) (counts : List Nat) (m : Message) :
    List Nat :=
  match m.timestamp with
  | none => counts
  | some .invalid => counts
  | some (.valid ms) =>
    counts.set (getHours ms).val (counts.getD (getHours ms).val 0 + 1)

/-- `transformActivityByHourOfDay(messages)` from chartTransforms.js. -/
def transformActivityByHourOfDay (getHours : Int → Fin 24)
    (messages : List Message) : List String × List Nat :=
  if messages.isEmpty then ([], [])
  else (hourLabels, messages.foldl (hourStep getHours) (List.replicate 24 0))

theorem dayStep_length (getDay : Int → Fin 7) (counts : List Nat)
    (m : Message) : (dayStep getDay counts m).length = counts.length := by
  cases h : m.timestamp with
  | none => simp [dayStep, h]
  | some d => cases d <;> simp [dayStep, h]

theorem hourStep_length (getHours : Int → Fin 24) (counts : List Nat)
    (m : Message) : (hourStep getHours counts m).length = counts.length := by
  cases h : m.timestamp with
  | none => simp [hourStep, h]
  | some d => cases d <;> simp [hourStep, h]

theorem foldl_dayStep_length (getDay : Int → Fin 7) (msgs : List Message)
    (counts : List Nat) :
    (msgs.foldl (dayStep getDay) counts).length = counts.length := by
  induction msgs generalizing counts with
  | nil => rfl
  | cons m rest ih => rw [List.foldl_cons, ih, dayStep_length]

theorem foldl_hourStep_length (getHours : Int → Fin 24) (msgs : List Message)
    (counts : List Nat) :
    (msgs.foldl (hourStep getHours) counts).length = counts.length := by
  induction msgs generalizing counts with
  | nil => rfl
  | cons m rest ih => rw [List.foldl_cons, ih, hourStep_length]

/-- C9 counterexample: on the empty message list both activity transforms
return empty label and data arrays (the early-return guard), not the
7-entry and 24-entry label arrays the claim requires for every message
list. -/
theorem transformActivity_empty_counterexample :
    (transformActivityByDayOfWeek (fun _ => 0) []).1.length = 0 ∧
    (transformActivityByHourOfDay (fun _ => 0) []).1.length = 0 ∧
    transformActivityByDayOfWeek (fun _ => 0) [] = ([], []) ∧
    transformActivityByHourOfDay (fun _ => 0) [] = ([], []) :=
  ⟨rfl, rfl, rfl, rfl⟩

/-- C9 (amended): for every NON-empty message list, the weekday transform
returns exactly 7 labels paired with a data array of length 7 and the
hour-of-day transform exactly 24 of each, all buckets present even when
their counts are zero; for the empty list, both transforms return empty
label and data arrays of matching (zero) length. -/
theorem transformActivity_bucket_lengths (getDay : Int → Fin 7)
    (getHours : Int → Fin 24) (messages : List Message) :
    (messages ≠ [] →
      (transformActivityByDayOfWeek getDay messages).1.length = 7 ∧
      (transformActivityByDayOfWeek getDay messages).2.length = 7 ∧
      (transformActivityByHourOfDay getHours messages).1.length = 24 ∧
      (transformActivityByHourOfDay getHours messages).2.length = 24) ∧
    (messages = [] →
      transformActivityByDayOfWeek getDay messages = ([], []) ∧
      transformActivityByHourOfDay getHours messages = ([], [])) := by
  constructor
  · intro hne
    have hO : messages.isEmpty = false := by
      cases messages with
      | nil => exact absurd rfl hne
      | cons a t => rfl
    refine ⟨?_, ?_, ?_, ?_⟩ <;>
      simp [transformActivityByDayOfWeek, transformActivityByHourOfDay, hO,
        foldl_dayStep_length, foldl_hourStep_length, dayLabels, hourLabels]
  · intro he
    subst he
    exact ⟨rfl, rfl⟩

/-- A concrete message for the C9 witness. -/
def msgW : Message :=
  { sender := "Alice".toList, content := [], timestamp := some (.valid 0),
    emojis := [], type := "empty" }

/-- Witness for C9: a one-message list produces 7/7 and 24/24 label/data
arrays. -/
theorem transformActivity_bucket_lengths_witness :
    (transformActivityByDayOfWeek (fun _ => 0) [msgW]).1.length = 7 ∧
    (transformActivityByDayOfWeek (fun _ => 0) [msgW]).2.length = 7 ∧
    (transformActivityByHourOfDay (fun _ => 0) [msgW]).1.length = 24 ∧
    (transformActivityByHourOfDay (fun _ => 0) [msgW]).2.length = 24 :=
  (transformActivity_bucket_lengths (fun _ => 0) (fun _ => 0) [msgW]).1
    (List.cons_ne_nil _ _)

end ChatStats
